import Mathlib

/-!
# Tic-tac-toe (src/tictactoe.c): game state machine

A shallow embedding of the game engine of `src/tictactoe.c` and theorems about it.

* C enums become inductive types with the constructors of the source.
* `board_t` (`state_t[BOARD_SIZE]`, `BOARD_SIZE = 9`) is a function on `Fin 9`.
* `int` fields are `Int`; the cursor stays in `0..8` on every state the program reaches,
  so no arithmetic on it gets near the limits of a machine `int`.
* `char input` is the integer value the `switch` sees.
* The functions of the source mutate `*game` in place; here they take the state and
  return the new one.  `submit` indexes the board with `cursor`: an index outside
  `0..8` is undefined behaviour in C, modelled by `none`.
-/

namespace TicTacToe

/-! ## Types (lines 47-61) -/

/-- `typedef enum { EMPTY = ' ', PLAYER1 = 'X', PLAYER2 = 'O' } state_t;` -/
inductive state_t where
  | EMPTY
  | PLAYER1
  | PLAYER2
  deriving DecidableEq, Repr

/-- `typedef enum { IN_PROGRESS, DRAW, PLAYER1_WIN, PLAYER2_WIN } winner_t;` -/
inductive winner_t where
  | IN_PROGRESS
  | DRAW
  | PLAYER1_WIN
  | PLAYER2_WIN
  deriving DecidableEq, Repr

/-- `typedef enum { PLAYER1_TURN, PLAYER2_TURN } turn_t;` -/
inductive turn_t where
  | PLAYER1_TURN
  | PLAYER2_TURN
  deriving DecidableEq, Repr

open state_t winner_t turn_t

/-- `typedef state_t board_t[BOARD_SIZE];` with `BOARD_SIZE = 9`. -/
abbrev board_t := Fin 9 → state_t

/-- The struct `game_t` (lines 54-61). -/
structure game_t where
  turn : turn_t
  winner : winner_t
  board : board_t
  cursor : Int
  quit : Bool
  players : Int

/-! ## Key codes (lines 32-37) -/

def UP : Int := 65
def RIGHT : Int := 67
def DOWN : Int := 66
def LEFT : Int := 68
def SPACE : Int := 32
def ENTER : Int := 10

/-! ## Cursor moves (lines 93-131) -/

/-- `move_left`: no-op when the cursor is 0, 3 or 6, else `cursor -= 1`. -/
def move_left (game : game_t) : game_t :=
  if 0 = game.cursor ∨ 3 = game.cursor ∨ 6 = game.cursor then game
  else { game with cursor := game.cursor - 1 }

/-- `move_up`: no-op when the cursor is 0, 1 or 2, else `cursor -= 3`. -/
def move_up (game : game_t) : game_t :=
  if 0 = game.cursor ∨ 1 = game.cursor ∨ 2 = game.cursor then game
  else { game with cursor := game.cursor - 3 }

/-- `move_right`: no-op when the cursor is 2, 5 or 8, else `cursor += 1`. -/
def move_right (game : game_t) : game_t :=
  if 2 = game.cursor ∨ 5 = game.cursor ∨ 8 = game.cursor then game
  else { game with cursor := game.cursor + 1 }

/-- `move_down`: no-op when the cursor is 6, 7 or 8, else `cursor += 3`. -/
def move_down (game : game_t) : game_t :=
  if 6 = game.cursor ∨ 7 = game.cursor ∨ 8 = game.cursor then game
  else { game with cursor := game.cursor + 3 }

/-! ## Placing a mark (lines 133-147) -/

/-- The array slot `board[c]` named by an `int` index: defined only for `0 ≤ c < 9`. -/
def slot (c : Int) : Option (Fin 9) :=
  if h : 0 ≤ c ∧ c < 9 then some ⟨c.toNat, by omega⟩ else none

/-- `submit`: no-op on an occupied cell; otherwise writes the mark of the player whose
turn it is at `cursor` and flips the turn.  `none` is the out-of-bounds access. -/
def submit (game : game_t) : Option game_t :=
  match slot game.cursor with
  | none => none
  | some i =>
    if game.board i ≠ EMPTY then some game
    else if PLAYER1_TURN = game.turn then
      some { game with board := Function.update game.board i PLAYER1, turn := PLAYER2_TURN }
    else
      some { game with board := Function.update game.board i PLAYER2, turn := PLAYER1_TURN }

/-! ## Winner evaluation (lines 149-190) -/

/-- The table `threesies` (lines 156-165), `num_threesies = 8` rows of three indices. -/
def threesies : List (Fin 9 × Fin 9 × Fin 9) :=
  [(0, 1, 2), (3, 4, 5), (6, 7, 8), (0, 3, 6), (1, 4, 7), (2, 5, 8), (0, 4, 8), (2, 4, 6)]

/-- The first loop of `game_won` (lines 167-181) over the remaining rows of the table:
`some w` when the loop assigns `w` to `winner` and returns, `none` when it runs out.
Both branches assign `PLAYER1_WIN` (lines 173 and 178). -/
def line_loop (board : board_t) : List (Fin 9 × Fin 9 × Fin 9) → Option winner_t
  | [] => none
  | t :: rest =>
    let a := board t.1
    let b := board t.2.1
    let c := board t.2.2
    if PLAYER1 = a ∧ PLAYER1 = b ∧ PLAYER1 = c then some PLAYER1_WIN
    else if PLAYER2 = a ∧ PLAYER2 = b ∧ PLAYER2 = c then some PLAYER1_WIN
    else line_loop board rest

/-- The second loop of `game_won` (lines 184-188): true when it returns early because
some cell is `EMPTY`. -/
def empty_loop (board : board_t) : Bool :=
  (List.finRange 9).any (fun i => decide (EMPTY = board i))

/-- `game_won` (lines 149-190). -/
def game_won (game : game_t) : game_t :=
  match line_loop game.board threesies with
  | some w => { game with winner := w }
  | none => if empty_loop game.board then game else { game with winner := DRAW }

/-! ## Input dispatch, initialisation, AI stub, update (lines 192-272) -/

/-- `game_move` (lines 192-240): sets `quit` when the game is over, then (there is no
`return` after that assignment) dispatches on the input byte. -/
def game_move (game : game_t) (input : Int) : Option game_t :=
  let game := if game.winner ≠ IN_PROGRESS then { game with quit := true } else game
  if input = 97 ∨ input = LEFT then some (move_left game)
  else if input = 119 ∨ input = UP then some (move_up game)
  else if input = 100 ∨ input = RIGHT then some (move_right game)
  else if input = 115 ∨ input = DOWN then some (move_down game)
  else if input = ENTER ∨ input = SPACE then submit game
  else some game

/-- `game_init` (lines 242-252). -/
def game_init (players : Int) : game_t :=
  { cursor := 0, players := players, quit := false, turn := PLAYER1_TURN,
    winner := IN_PROGRESS, board := fun _ => EMPTY }

/-- `game_ai` (lines 254-261): the stub only hands the turn back to player 1. -/
def game_ai (game : game_t) : game_t :=
  { game with turn := PLAYER1_TURN }

/-- One input cycle, `game_update` (lines 263-272), with the byte returned by
`process_input` as argument. -/
def game_update (game : game_t) (input : Int) : Option game_t :=
  match game_move game input with
  | none => none
  | some game =>
    let game := if 1 = game.players then game_ai game else game
    some (game_won game)

/-- A finite sequence of input cycles applied in order. -/
def run (game : game_t) : List Int → Option game_t
  | [] => some game
  | input :: rest =>
    match game_update game input with
    | none => none
    | some game => run game rest

/-- The loop of `main` (lines 483-486) fed a list of pending input bytes: a cycle is
run only while `quit` is false. -/
def main_loop (game : game_t) : List Int → Option game_t
  | [] => some game
  | input :: rest =>
    if game.quit then some game
    else
      match game_update game input with
      | none => none
      | some game => main_loop game rest

/-- States reachable from `game_init players` by input cycles. -/
inductive Reachable (players : Int) : game_t → Prop where
  | init : Reachable players (game_init players)
  | step {game next : game_t} (input : Int) :
      Reachable players game → game_update game input = some next → Reachable players next

/-! ## Reading a key (lines 76-90) -/

/-- `BUFFER_SIZE` (line 76). -/
def BUFFER_SIZE : Nat := 10

/-- What `read(STDIN_FILENO, &buffer, 5)` does: fails with `-1`, or delivers some bytes
(none at end of input). -/
inductive read_t where
  | failed
  | delivered (bytes : List Int)

/-- How a call of `process_input` ends: the process exits with `EXIT_FAILURE`, the call
reads `buffer[-1]` (undefined behaviour in C), or it returns a `char` and leaves the
static buffer with the given contents. -/
inductive input_t where
  | exit_failure
  | undefined
  | returned (c : Int) (buffer : List Int)

/-- `process_input` (lines 77-90), given the contents of the static buffer before the
call and what `read` does.  The `memset` clears `sizeof(char) * sizeof(BUFFER_SIZE)`
bytes, the size of an `int` (4), not the whole buffer; `read` stores at most 5 bytes at
the start of the buffer and returns their number; the result is `buffer[bytes_read - 1]`. -/
def process_input (buffer : List Int) (r : read_t) : input_t :=
  let buffer := List.replicate 4 0 ++ buffer.drop 4
  match r with
  | read_t.failed => input_t.exit_failure
  | read_t.delivered bytes =>
    let stored := bytes.take 5
    let bytes_read := stored.length
    let buffer := stored ++ buffer.drop bytes_read
    if bytes_read = 0 then input_t.undefined
    else
      match buffer[bytes_read - 1]? with
      | some c => input_t.returned c buffer
      | none => input_t.undefined

/-! ## Drawing (lines 274-394) -/

/-- The fields `width` and `height` of `screen_t` (lines 63-67); the saved `termios`
settings play no part in drawing. -/
structure screen_t where
  width : Int
  height : Int

/-- The calls of `printf` made by the drawing code, by format string: a literal text,
the cursor positioning `"\033[%d;%dH"`, one board cell (`"%c"`, or
`"\033[7m%c\033[27m"` when inverted), and the positioned message `"\033[%d;%dH%s"`. -/
inductive printf_call where
  | text (s : String)
  | position (row col : Int)
  | cell (inverted : Bool) (state : state_t)
  | message (row col : Int) (msg : String)
  deriving DecidableEq

/-- The character value of a `state_t` (line 47). -/
def state_char : state_t → Char
  | EMPTY => ' '
  | PLAYER1 => 'X'
  | PLAYER2 => 'O'

/-- The bytes a `printf` call writes. -/
def emit : printf_call → String
  | printf_call.text s => s
  | printf_call.position row col => "\x1b[" ++ toString row ++ ";" ++ toString col ++ "H"
  | printf_call.cell true state => "\x1b[7m" ++ String.singleton (state_char state) ++ "\x1b[27m"
  | printf_call.cell false state => String.singleton (state_char state)
  | printf_call.message row col msg =>
    "\x1b[" ++ toString row ++ ";" ++ toString col ++ "H" ++ msg

/-- The bytes written by a sequence of `printf` calls. -/
def output (calls : List printf_call) : String :=
  String.join (calls.map emit)

/-- Division of `int` values in C truncates toward zero. -/
def c_div (a b : Int) : Int := Int.tdiv a b

/-- Conversion of an `int` to `size_t` (64 bits): reduction modulo `2^64`. -/
def to_size (x : Int) : Int := x % 18446744073709551616

/-- Conversion of a `size_t` value to `int` (32 bits, two's complement). -/
def to_int (x : Int) : Int := (x + 2147483648) % 4294967296 - 2147483648

/-- `print_position` (lines 274-283). -/
def print_position (game : game_t) (position : Fin 9) : printf_call :=
  printf_call.cell (decide ((position.val : Int) = game.cursor)) (game.board position)

/-- `print_win` (lines 285-323).  `strlen` returns a `size_t`, so each `left_pad` is
computed in `size_t` and converted back to `int`. -/
def print_win (game : game_t) (screen : screen_t) : List printf_call :=
  let player1_win := "PLAYER 1 WINS"
  let player2_win := "PLAYER 2 WINS"
  let draw := "DRAW"
  let msg2 := "Press any key to exit\n\n"
  let msg1 : Option String :=
    match game.winner with
    | PLAYER1_WIN => some player1_win
    | PLAYER2_WIN => some player2_win
    | DRAW => some draw
    | IN_PROGRESS => none
  match msg1 with
  | none => []
  | some msg1 =>
    let left_pad1 := to_int (to_size (to_size (c_div screen.width 2) - (msg1.length / 2 : Nat)))
    let left_pad2 :=
      to_int (to_size (to_size (c_div screen.width 2) - ((msg2.length - 2) / 2 : Nat)))
    let top_padding := c_div screen.height 2 - 3
    [printf_call.message (top_padding + 6) left_pad1 msg1,
     printf_call.message (top_padding + 7) left_pad2 msg2]

/-- `game_draw` (lines 325-394), as the sequence of its `printf` calls. -/
def game_draw (game : game_t) (screen : screen_t) : List printf_call :=
  let top_padding := c_div screen.height 2 - 3
  let left_padding := c_div screen.width 2 - 5
  [printf_call.text "\x1b[?25l\x1b[2J\x1b[0;0H",
   printf_call.position top_padding left_padding,
   printf_call.text " ", print_position game 0, printf_call.text " | ",
   print_position game 1, printf_call.text " | ", print_position game 2,
   printf_call.text " ",
   printf_call.position (top_padding + 1) left_padding,
   printf_call.text "-----------",
   printf_call.position (top_padding + 2) left_padding,
   printf_call.text " ", print_position game 3, printf_call.text " | ",
   print_position game 4, printf_call.text " | ", print_position game 5,
   printf_call.text " ",
   printf_call.position (top_padding + 3) left_padding,
   printf_call.text "-----------",
   printf_call.position (top_padding + 4) left_padding,
   printf_call.text " ", print_position game 6, printf_call.text " | ",
   print_position game 7, printf_call.text " | ", print_position game 8,
   printf_call.text " "] ++
  print_win game screen

/-! ## Vocabulary of the statements -/

/-- Number of cells of the board holding mark `m`. -/
def count (board : board_t) (m : state_t) : Nat :=
  ((List.finRange 9).filter (fun i => decide (board i = m))).length

/-- Cells `i`, `j`, `k` hold three equal marks other than `EMPTY`. -/
def three_equal (board : board_t) (i j k : Fin 9) : Prop :=
  board i ≠ EMPTY ∧ board i = board j ∧ board j = board k

instance (board : board_t) (i j k : Fin 9) : Decidable (three_equal board i j k) := by
  unfold three_equal; infer_instance

/-- Cells `i`, `j`, `k` all hold mark `m`. -/
def three_of (board : board_t) (m : state_t) (i j k : Fin 9) : Prop :=
  board i = m ∧ board j = m ∧ board k = m

instance (board : board_t) (m : state_t) (i j k : Fin 9) :
    Decidable (three_of board m i j k) := by
  unfold three_of; infer_instance

/-- Some row, column or diagonal of the 3x3 grid holds three marks `m`; rows are
`{3r, 3r+1, 3r+2}`, columns `{c, c+3, c+6}`, diagonals `{0,4,8}` and `{2,4,6}`. -/
def has_line_of (board : board_t) (m : state_t) : Prop :=
  (∃ r : Fin 3, three_of board m ⟨3 * r.val, by omega⟩ ⟨3 * r.val + 1, by omega⟩
      ⟨3 * r.val + 2, by omega⟩) ∨
  (∃ c : Fin 3, three_of board m ⟨c.val, by omega⟩ ⟨c.val + 3, by omega⟩
      ⟨c.val + 6, by omega⟩) ∨
  three_of board m 0 4 8 ∨ three_of board m 2 4 6

/-- Some row, column or diagonal holds three equal marks other than `EMPTY`. -/
def has_line (board : board_t) : Prop :=
  (∃ r : Fin 3, three_equal board ⟨3 * r.val, by omega⟩ ⟨3 * r.val + 1, by omega⟩
      ⟨3 * r.val + 2, by omega⟩) ∨
  (∃ c : Fin 3, three_equal board ⟨c.val, by omega⟩ ⟨c.val + 3, by omega⟩
      ⟨c.val + 6, by omega⟩) ∨
  three_equal board 0 4 8 ∨ three_equal board 2 4 6

instance (board : board_t) (m : state_t) : Decidable (has_line_of board m) := by
  unfold has_line_of; infer_instance

instance (board : board_t) : Decidable (has_line board) := by
  unfold has_line; infer_instance

/-- The 8 lines of the grid as the specification words them: three rows, three columns,
two diagonals. -/
def grid_lines : List (Fin 9 × Fin 9 × Fin 9) :=
  (List.finRange 3).map (fun r => (⟨3 * r.val, by omega⟩, ⟨3 * r.val + 1, by omega⟩,
    ⟨3 * r.val + 2, by omega⟩)) ++
  (List.finRange 3).map (fun c => (⟨c.val, by omega⟩, ⟨c.val + 3, by omega⟩,
    ⟨c.val + 6, by omega⟩)) ++
  [(0, 4, 8), (2, 4, 6)]

/-- The inputs of the two-player game X at 0, O at 3, X at 1, O at 4, X at 2. -/
def top_row_game : List Int := [32, 115, 32, 119, 100, 32, 115, 32, 119, 100, 32]

/-- The mark `submit` writes for the player whose turn it is. -/
def mark_of : turn_t → state_t
  | PLAYER1_TURN => PLAYER1
  | PLAYER2_TURN => PLAYER2

/-- The turn of the other player. -/
def other_turn : turn_t → turn_t
  | PLAYER1_TURN => PLAYER2_TURN
  | PLAYER2_TURN => PLAYER1_TURN

/-- Two states agree on every field other than `cursor`. -/
def same_but_cursor (a b : game_t) : Prop :=
  a.turn = b.turn ∧ a.winner = b.winner ∧ a.board = b.board ∧ a.quit = b.quit ∧
  a.players = b.players

/-- The full board X,O,X / X,O,O / O,X,X in row order. -/
def draw_board : board_t :=
  ![PLAYER1, PLAYER2, PLAYER1, PLAYER1, PLAYER2, PLAYER2, PLAYER2, PLAYER1, PLAYER1]

/-- The cursor positionings of a sequence of `printf` calls, each with the calls that
follow it up to the next positioning or positioned message. -/
def positioned : List printf_call → List ((Int × Int) × List printf_call)
  | [] => []
  | printf_call.position row col :: rest =>
    ((row, col), rest.takeWhile (fun c =>
      match c with
      | printf_call.text _ => true
      | printf_call.cell _ _ => true
      | _ => false)) :: positioned rest
  | _ :: rest => positioned rest

/-- The calls that draw the cells `i`, `j`, `k` as one row of the board. -/
def board_row (game : game_t) (i j k : Fin 9) : List printf_call :=
  [printf_call.text " ", print_position game i, printf_call.text " | ",
   print_position game j, printf_call.text " | ", print_position game k,
   printf_call.text " "]

/-- The status line and the prompt as the specification words them: the status text on
row `(height/2 - 3) + 6` at column `width/2 - len(text)/2`, the prompt on the next row,
centred on its 21 visible characters. -/
def status_lines (screen : screen_t) (status : String) : List printf_call :=
  [printf_call.message ((c_div screen.height 2 - 3) + 6)
     (c_div screen.width 2 - (status.length / 2 : Nat)) status,
   printf_call.message ((c_div screen.height 2 - 3) + 7)
     (c_div screen.width 2 - 10) "Press any key to exit\n\n"]

/-- The inputs of the two-player game X at 3, O at 0, X at 4, O at 1, X at 6, O at 2. -/
def o_top_row_game : List Int :=
  [115, 32, 119, 32, 115, 100, 32, 119, 32, 115, 115, 97, 32, 119, 119, 100, 100, 32]

/-- What `game_won` would store for a board when the game was in progress before:
`PLAYER1_WIN` for any line (the source assigns that tag for either mark), `DRAW` for a
full board without a line, `IN_PROGRESS` otherwise. -/
def verdict (board : board_t) : winner_t :=
  if has_line board then PLAYER1_WIN
  else if ∃ i, board i = EMPTY then IN_PROGRESS else DRAW

/-- The invariant of the input cycle: the cursor is on the board, `players` is the mode
the game was created with, the stored winner is the verdict of the board; in
single-player mode the turn is player 1's and there is no `PLAYER2` mark, otherwise the
turn tracks the mark counts. -/
structure Inv (players : Int) (game : game_t) : Prop where
  cursor_lo : 0 ≤ game.cursor
  cursor_hi : game.cursor ≤ 8
  players_eq : game.players = players
  winner_eq : game.winner = verdict game.board
  turn_one : players = 1 → game.turn = PLAYER1_TURN ∧ count game.board PLAYER2 = 0
  turn_two : players ≠ 1 →
    (game.turn = PLAYER1_TURN ∧ count game.board PLAYER1 = count game.board PLAYER2) ∨
    (game.turn = PLAYER2_TURN ∧ count game.board PLAYER1 = count game.board PLAYER2 + 1)

/-! ## Basic facts -/

theorem slot_of_fin (i : Fin 9) : slot (i.val : Int) = some i := by
  unfold slot
  have h : 0 ≤ (i.val : Int) ∧ (i.val : Int) < 9 := by omega
  rw [dif_pos h]
  simp

theorem slot_some_val {c : Int} {i : Fin 9} (h : slot c = some i) : (i.val : Int) = c := by
  unfold slot at h
  split at h
  · rename_i hc
    simp only [Option.some.injEq] at h
    subst h
    simp only [Int.toNat_of_nonneg hc.1]
  · cases h

theorem slot_in_range {c : Int} (h0 : 0 ≤ c) (h8 : c ≤ 8) :
    ∃ i : Fin 9, slot c = some i ∧ (i.val : Int) = c := by
  refine ⟨⟨c.toNat, by omega⟩, ?_, ?_⟩
  · unfold slot
    rw [dif_pos (by omega)]
  · simp only [Int.toNat_of_nonneg h0]


theorem threesies_eq_grid_lines : threesies = grid_lines := by decide

theorem three_equal_iff (board : board_t) (i j k : Fin 9) :
    three_equal board i j k ↔ three_of board PLAYER1 i j k ∨ three_of board PLAYER2 i j k := by
  unfold three_equal three_of
  cases hi : board i <;> cases hj : board j <;> cases hk : board k <;> simp

theorem has_line_iff (board : board_t) :
    has_line board ↔ ∃ t ∈ threesies, three_equal board t.1 t.2.1 t.2.2 := by
  unfold has_line
  simp only [Fin.exists_fin_succ, threesies, List.mem_cons, List.mem_singleton,
    exists_eq_or_imp, exists_eq_left, List.not_mem_nil, false_and, exists_false, or_false]
  simp
  tauto

theorem line_loop_some {board : board_t} {l : List (Fin 9 × Fin 9 × Fin 9)} {w : winner_t}
    (h : line_loop board l = some w) : w = PLAYER1_WIN := by
  induction l with
  | nil => cases h
  | cons t rest ih =>
    simp only [line_loop] at h
    split_ifs at h
    · exact (Option.some.inj h).symm
    · exact (Option.some.inj h).symm
    · exact ih h

theorem line_loop_eq_none_iff (board : board_t) (l : List (Fin 9 × Fin 9 × Fin 9)) :
    line_loop board l = none ↔ ∀ t ∈ l, ¬ three_equal board t.1 t.2.1 t.2.2 := by
  induction l with
  | nil => simp [line_loop]
  | cons t rest ih =>
    simp only [line_loop, List.mem_cons, forall_eq_or_imp, three_equal_iff, three_of]
    split_ifs with h1 h2
    · simp only [reduceCtorEq, false_iff, not_and]
      intro hn
      exact absurd (Or.inl ⟨h1.1.symm, h1.2.1.symm, h1.2.2.symm⟩) hn
    · simp only [reduceCtorEq, false_iff, not_and]
      intro hn
      exact absurd (Or.inr ⟨h2.1.symm, h2.2.1.symm, h2.2.2.symm⟩) hn
    · rw [ih]
      simp only [three_equal_iff, three_of]
      constructor
      · intro h
        refine ⟨?_, h⟩
        rintro (⟨a, b, c⟩ | ⟨a, b, c⟩)
        · exact h1 ⟨a.symm, b.symm, c.symm⟩
        · exact h2 ⟨a.symm, b.symm, c.symm⟩
      · exact fun h => h.2

theorem line_loop_threesies_none_iff (board : board_t) :
    line_loop board threesies = none ↔ ¬ has_line board := by
  rw [line_loop_eq_none_iff, has_line_iff]
  simp

theorem empty_loop_iff (board : board_t) :
    empty_loop board = true ↔ ∃ i, board i = EMPTY := by
  unfold empty_loop
  simp only [List.any_eq_true, List.mem_finRange, true_and, decide_eq_true_eq]
  constructor
  · rintro ⟨i, h⟩
    exact ⟨i, h.symm⟩
  · rintro ⟨i, h⟩
    exact ⟨i, h.symm⟩

/-- What `game_won` leaves in `winner`, by cases on the board. -/
theorem game_won_winner (game : game_t) :
    (game_won game).winner =
      if has_line game.board then PLAYER1_WIN
      else if ∃ i, game.board i = EMPTY then game.winner else DRAW := by
  unfold game_won
  cases h : line_loop game.board threesies with
  | none =>
    have hl := (line_loop_threesies_none_iff game.board).1 h
    rw [if_neg hl]
    by_cases he : ∃ i, game.board i = EMPTY
    · rw [if_pos he]
      simp [(empty_loop_iff game.board).2 he]
    · rw [if_neg he]
      have : empty_loop game.board = false := by
        rw [← Bool.not_eq_true, empty_loop_iff]
        exact he
      simp [this]
  | some w =>
    have hl : has_line game.board := by
      by_contra hn
      rw [(line_loop_threesies_none_iff game.board).2 hn] at h
      cases h
    rw [if_pos hl]
    exact line_loop_some h

theorem game_won_frame (game : game_t) :
    (game_won game).board = game.board ∧ (game_won game).turn = game.turn ∧
    (game_won game).cursor = game.cursor ∧ (game_won game).quit = game.quit ∧
    (game_won game).players = game.players := by
  unfold game_won
  split
  · exact ⟨rfl, rfl, rfl, rfl, rfl⟩
  · split <;> exact ⟨rfl, rfl, rfl, rfl, rfl⟩

/-- The state `game_move` dispatches on: `quit` raised when the game is over. -/
theorem game_move_eq (game : game_t) (input : Int) :
    game_move game input =
      (fun g : game_t =>
        if input = 97 ∨ input = LEFT then some (move_left g)
        else if input = 119 ∨ input = UP then some (move_up g)
        else if input = 100 ∨ input = RIGHT then some (move_right g)
        else if input = 115 ∨ input = DOWN then some (move_down g)
        else if input = ENTER ∨ input = SPACE then submit g
        else some g)
      { game with quit := game.quit || decide (game.winner ≠ IN_PROGRESS) } := by
  unfold game_move
  cases game with
  | mk turn winner board cursor quit players =>
    by_cases h : winner = IN_PROGRESS
    · subst h
      simp
    · simp [h]

theorem move_left_frame (game : game_t) (h0 : 0 ≤ game.cursor) (h8 : game.cursor ≤ 8) :
    0 ≤ (move_left game).cursor ∧ (move_left game).cursor ≤ 8 ∧
    (move_left game).winner = game.winner ∧ (move_left game).players = game.players ∧
    (move_left game).quit = game.quit ∧ (move_left game).board = game.board ∧
    (move_left game).turn = game.turn := by
  unfold move_left
  split_ifs
  · exact ⟨h0, h8, rfl, rfl, rfl, rfl, rfl⟩
  · exact ⟨by simp only; omega, by simp only; omega, rfl, rfl, rfl, rfl, rfl⟩

theorem move_up_frame (game : game_t) (h0 : 0 ≤ game.cursor) (h8 : game.cursor ≤ 8) :
    0 ≤ (move_up game).cursor ∧ (move_up game).cursor ≤ 8 ∧
    (move_up game).winner = game.winner ∧ (move_up game).players = game.players ∧
    (move_up game).quit = game.quit ∧ (move_up game).board = game.board ∧
    (move_up game).turn = game.turn := by
  unfold move_up
  split_ifs
  · exact ⟨h0, h8, rfl, rfl, rfl, rfl, rfl⟩
  · exact ⟨by simp only; omega, by simp only; omega, rfl, rfl, rfl, rfl, rfl⟩

theorem move_right_frame (game : game_t) (h0 : 0 ≤ game.cursor) (h8 : game.cursor ≤ 8) :
    0 ≤ (move_right game).cursor ∧ (move_right game).cursor ≤ 8 ∧
    (move_right game).winner = game.winner ∧ (move_right game).players = game.players ∧
    (move_right game).quit = game.quit ∧ (move_right game).board = game.board ∧
    (move_right game).turn = game.turn := by
  unfold move_right
  split_ifs
  · exact ⟨h0, h8, rfl, rfl, rfl, rfl, rfl⟩
  · exact ⟨by simp only; omega, by simp only; omega, rfl, rfl, rfl, rfl, rfl⟩

theorem move_down_frame (game : game_t) (h0 : 0 ≤ game.cursor) (h8 : game.cursor ≤ 8) :
    0 ≤ (move_down game).cursor ∧ (move_down game).cursor ≤ 8 ∧
    (move_down game).winner = game.winner ∧ (move_down game).players = game.players ∧
    (move_down game).quit = game.quit ∧ (move_down game).board = game.board ∧
    (move_down game).turn = game.turn := by
  unfold move_down
  split_ifs
  · exact ⟨h0, h8, rfl, rfl, rfl, rfl, rfl⟩
  · exact ⟨by simp only; omega, by simp only; omega, rfl, rfl, rfl, rfl, rfl⟩

theorem submit_cases (game : game_t) (h0 : 0 ≤ game.cursor) (h8 : game.cursor ≤ 8) :
    ∃ i : Fin 9, (i.val : Int) = game.cursor ∧
      ((game.board i ≠ EMPTY ∧ submit game = some game) ∨
       (game.board i = EMPTY ∧ game.turn = PLAYER1_TURN ∧
          submit game = some { game with board := Function.update game.board i PLAYER1,
                                         turn := PLAYER2_TURN }) ∨
       (game.board i = EMPTY ∧ game.turn = PLAYER2_TURN ∧
          submit game = some { game with board := Function.update game.board i PLAYER2,
                                         turn := PLAYER1_TURN })) := by
  obtain ⟨i, hs, hi⟩ := slot_in_range h0 h8
  refine ⟨i, hi, ?_⟩
  unfold submit
  rw [hs]
  by_cases hb : game.board i = EMPTY
  · right
    cases ht : game.turn with
    | PLAYER1_TURN => left; simp [hb]
    | PLAYER2_TURN => right; simp [hb]
  · left
    simp [hb]

/-- Every outcome of `game_move` on a state whose cursor is on the board: the call
returns; cursor stays on the board; winner and players are kept; quit is raised exactly
when the game is over; and either board and turn are kept, or a mark was placed on the
empty cell under the cursor by a confirm byte and the turn flipped. -/
theorem game_move_cases (game : game_t) (input : Int)
    (h0 : 0 ≤ game.cursor) (h8 : game.cursor ≤ 8) :
    ∃ mid, game_move game input = some mid ∧ 0 ≤ mid.cursor ∧ mid.cursor ≤ 8 ∧
      mid.winner = game.winner ∧ mid.players = game.players ∧
      mid.quit = (game.quit || decide (game.winner ≠ IN_PROGRESS)) ∧
      ((mid.board = game.board ∧ mid.turn = game.turn) ∨
       (∃ i : Fin 9, (i.val : Int) = game.cursor ∧ game.board i = EMPTY ∧
          mid.cursor = game.cursor ∧ (input = ENTER ∨ input = SPACE) ∧
          ((game.turn = PLAYER1_TURN ∧ mid.board = Function.update game.board i PLAYER1 ∧
              mid.turn = PLAYER2_TURN) ∨
           (game.turn = PLAYER2_TURN ∧ mid.board = Function.update game.board i PLAYER2 ∧
              mid.turn = PLAYER1_TURN)))) := by
  rw [game_move_eq]
  simp only
  have key : ∀ f : game_t → game_t,
      (∀ g : game_t, 0 ≤ g.cursor → g.cursor ≤ 8 →
        0 ≤ (f g).cursor ∧ (f g).cursor ≤ 8 ∧ (f g).winner = g.winner ∧
        (f g).players = g.players ∧ (f g).quit = g.quit ∧ (f g).board = g.board ∧
        (f g).turn = g.turn) →
      ∃ mid, some (f { game with quit := game.quit || decide (game.winner ≠ IN_PROGRESS) })
          = some mid ∧ 0 ≤ mid.cursor ∧ mid.cursor ≤ 8 ∧
        mid.winner = game.winner ∧ mid.players = game.players ∧
        mid.quit = (game.quit || decide (game.winner ≠ IN_PROGRESS)) ∧
        ((mid.board = game.board ∧ mid.turn = game.turn) ∨
         (∃ i : Fin 9, (i.val : Int) = game.cursor ∧ game.board i = EMPTY ∧
            mid.cursor = game.cursor ∧ (input = ENTER ∨ input = SPACE) ∧
            ((game.turn = PLAYER1_TURN ∧ mid.board = Function.update game.board i PLAYER1 ∧
                mid.turn = PLAYER2_TURN) ∨
             (game.turn = PLAYER2_TURN ∧ mid.board = Function.update game.board i PLAYER2 ∧
                mid.turn = PLAYER1_TURN)))) := by
    intro f hf
    obtain ⟨a, b, c, d, e, f1, f2⟩ :=
      hf { game with quit := game.quit || decide (game.winner ≠ IN_PROGRESS) } h0 h8
    exact ⟨_, rfl, a, b, c, d, e, Or.inl ⟨f1, f2⟩⟩
  split_ifs with h1 h2 h3 h4 h5
  · exact key move_left move_left_frame
  · exact key move_up move_up_frame
  · exact key move_right move_right_frame
  · exact key move_down move_down_frame
  · obtain ⟨i, hi, hc⟩ := submit_cases
      { game with quit := game.quit || decide (game.winner ≠ IN_PROGRESS) } h0 h8
    rcases hc with ⟨_, hs⟩ | ⟨hb, ht, hs⟩ | ⟨hb, ht, hs⟩
    · exact ⟨_, hs, h0, h8, rfl, rfl, rfl, Or.inl ⟨rfl, rfl⟩⟩
    · exact ⟨_, hs, h0, h8, rfl, rfl, rfl,
        Or.inr ⟨i, hi, hb, rfl, h5, Or.inl ⟨ht, rfl, rfl⟩⟩⟩
    · exact ⟨_, hs, h0, h8, rfl, rfl, rfl,
        Or.inr ⟨i, hi, hb, rfl, h5, Or.inr ⟨ht, rfl, rfl⟩⟩⟩
  · exact ⟨_, rfl, h0, h8, rfl, rfl, rfl, Or.inl ⟨rfl, rfl⟩⟩

theorem count_eq (board : board_t) (m : state_t) :
    count board m =
      (if board 0 = m then 1 else 0) + (if board 1 = m then 1 else 0) +
      (if board 2 = m then 1 else 0) + (if board 3 = m then 1 else 0) +
      (if board 4 = m then 1 else 0) + (if board 5 = m then 1 else 0) +
      (if board 6 = m then 1 else 0) + (if board 7 = m then 1 else 0) +
      (if board 8 = m then 1 else 0) := by
  have h : List.finRange 9 = [0, 1, 2, 3, 4, 5, 6, 7, 8] := by decide
  unfold count
  rw [h, ← List.countP_eq_length_filter]
  simp only [List.countP_cons, List.countP_nil, decide_eq_true_eq]
  omega

/-- Writing a mark on an empty cell adds one to the count of that mark and leaves the
count of the other mark alone. -/
theorem count_update (board : board_t) (i : Fin 9) (m m2 : state_t)
    (he : board i = EMPTY) (hm2 : m2 ≠ EMPTY) :
    count (Function.update board i m) m2 = count board m2 + (if m = m2 then 1 else 0) := by
  rw [count_eq, count_eq]
  have hne : EMPTY ≠ m2 := fun h => hm2 h.symm
  fin_cases i <;> simp only [Fin.zero_eta, Fin.mk_one, Fin.reduceFinMk] at he <;>
    simp [Function.update, he, hne] <;> omega

/-- A line survives the writing of a mark on an empty cell. -/
theorem has_line_update {board : board_t} {i : Fin 9} (m : state_t)
    (he : board i = EMPTY) (h : has_line board) : has_line (Function.update board i m) := by
  rw [has_line_iff] at h ⊢
  obtain ⟨t, ht, h1, h2, h3⟩ := h
  refine ⟨t, ht, ?_⟩
  have n1 : t.1 ≠ i := fun hx => h1 (hx ▸ he)
  have n2 : t.2.1 ≠ i := fun hx => h1 (h2.trans (hx ▸ he))
  have n3 : t.2.2 ≠ i := fun hx => h1 (h2.trans (h3.trans (hx ▸ he)))
  unfold three_equal
  rw [Function.update_noteq n1, Function.update_noteq n2, Function.update_noteq n3]
  exact ⟨h1, h2, h3⟩

/-- Every outcome of one input cycle on a state whose cursor is on the board. -/
theorem game_update_cases (game : game_t) (input : Int)
    (h0 : 0 ≤ game.cursor) (h8 : game.cursor ≤ 8) :
    ∃ next, game_update game input = some next ∧ 0 ≤ next.cursor ∧ next.cursor ≤ 8 ∧
      next.players = game.players ∧
      next.quit = (game.quit || decide (game.winner ≠ IN_PROGRESS)) ∧
      next.winner = (if has_line next.board then PLAYER1_WIN
        else if ∃ i, next.board i = EMPTY then game.winner else DRAW) ∧
      ((next.board = game.board ∧
          next.turn = if 1 = game.players then PLAYER1_TURN else game.turn) ∨
       (∃ i : Fin 9, (i.val : Int) = game.cursor ∧ game.board i = EMPTY ∧
          next.cursor = game.cursor ∧ (input = ENTER ∨ input = SPACE) ∧
          ((game.turn = PLAYER1_TURN ∧ next.board = Function.update game.board i PLAYER1 ∧
              next.turn = if 1 = game.players then PLAYER1_TURN else PLAYER2_TURN) ∨
           (game.turn = PLAYER2_TURN ∧ next.board = Function.update game.board i PLAYER2 ∧
              next.turn = PLAYER1_TURN)))) := by
  obtain ⟨mid, hm, c0, c8, hw, hp, hq, hcases⟩ := game_move_cases game input h0 h8
  unfold game_update
  rw [hm]
  simp only
  by_cases h1 : 1 = mid.players
  · rw [if_pos h1]
    obtain ⟨fb, ft, fc, fq, fp⟩ := game_won_frame (game_ai mid)
    refine ⟨_, rfl, ?_, ?_, ?_, ?_, ?_, ?_⟩
    · rw [fc]; exact c0
    · rw [fc]; exact c8
    · rw [fp]; exact hp
    · rw [fq]; exact hq
    · rw [game_won_winner, fb]
      simp only [game_ai, hw]
    · have h1g : 1 = game.players := hp ▸ h1
      rw [fb, ft, fc]
      simp only [if_pos h1g]
      rcases hcases with ⟨hb, _⟩ | ⟨i, hi, he, hc, hin, hx⟩
      · exact Or.inl ⟨hb, rfl⟩
      · refine Or.inr ⟨i, hi, he, hc, hin, ?_⟩
        rcases hx with ⟨ht, hb, _⟩ | ⟨ht, hb, _⟩
        · exact Or.inl ⟨ht, hb, rfl⟩
        · exact Or.inr ⟨ht, hb, rfl⟩
  · rw [if_neg h1]
    obtain ⟨fb, ft, fc, fq, fp⟩ := game_won_frame mid
    refine ⟨_, rfl, ?_, ?_, ?_, ?_, ?_, ?_⟩
    · rw [fc]; exact c0
    · rw [fc]; exact c8
    · rw [fp]; exact hp
    · rw [fq]; exact hq
    · rw [game_won_winner, fb, hw]
    · have h1g : ¬ 1 = game.players := hp ▸ h1
      rw [fb, ft, fc]
      simp only [if_neg h1g]
      rcases hcases with ⟨hb, ht⟩ | ⟨i, hi, he, hc, hin, hx⟩
      · exact Or.inl ⟨hb, ht⟩
      · exact Or.inr ⟨i, hi, he, hc, hin, hx⟩

theorem verdict_init : verdict (fun _ => EMPTY) = IN_PROGRESS := by decide

theorem count_init_zero : count (fun _ => EMPTY) PLAYER2 = 0 := by decide

theorem count_init : count (fun _ => EMPTY) PLAYER1 = count (fun _ => EMPTY) PLAYER2 := by
  decide

theorem Inv_init (players : Int) : Inv players (game_init players) where
  cursor_lo := by simp [game_init]
  cursor_hi := by simp [game_init]
  players_eq := rfl
  winner_eq := verdict_init.symm
  turn_one := fun _ => ⟨rfl, count_init_zero⟩
  turn_two := fun _ => Or.inl ⟨rfl, count_init⟩

/-- The stored winner after a cycle is the verdict of the new board, given that it was
the verdict of the old board and the new board is the old one or the old one plus a mark
on an empty cell. -/
theorem verdict_step {old new : board_t} {w w2 : winner_t} (hw : w = verdict old)
    (hw2 : w2 = (if has_line new then PLAYER1_WIN
        else if ∃ i, new i = EMPTY then w else DRAW))
    (hb : new = old ∨ ∃ i m, old i = EMPTY ∧ new = Function.update old i m) :
    w2 = verdict new := by
  rw [hw2]
  unfold verdict
  by_cases hl : has_line new
  · rw [if_pos hl, if_pos hl]
  · rw [if_neg hl, if_neg hl]
    by_cases he : ∃ i, new i = EMPTY
    · rw [if_pos he, if_pos he, hw]
      unfold verdict
      rcases hb with hb | ⟨i, m, hi, hb⟩
      · rw [← hb, if_neg hl, if_pos he]
      · have hl2 : ¬ has_line old := fun h => hl (hb ▸ has_line_update m hi h)
        rw [if_neg hl2, if_pos ⟨i, hi⟩]
    · rw [if_neg he, if_neg he]

/-- One input cycle from a state satisfying the invariant returns a state satisfying it. -/
theorem Inv_step {players : Int} {game : game_t} (h : Inv players game) (input : Int) :
    ∃ next, game_update game input = some next ∧ Inv players next := by
  obtain ⟨next, hn, c0, c8, hp, _, hw, hcases⟩ :=
    game_update_cases game input h.cursor_lo h.cursor_hi
  refine ⟨next, hn, ⟨c0, c8, hp.trans h.players_eq, ?_, ?_, ?_⟩⟩
  · refine verdict_step h.winner_eq hw ?_
    rcases hcases with ⟨hb, _⟩ | ⟨i, _, he, _, _, hx⟩
    · exact Or.inl hb
    · rcases hx with ⟨_, hb, _⟩ | ⟨_, hb, _⟩
      · exact Or.inr ⟨i, _, he, hb⟩
      · exact Or.inr ⟨i, _, he, hb⟩
  · intro h1
    have hg : 1 = game.players := by rw [h.players_eq, h1]
    obtain ⟨hturn, hzero⟩ := h.turn_one h1
    rcases hcases with ⟨hb, ht⟩ | ⟨i, _, he, _, _, hx⟩
    · rw [ht, if_pos hg, hb]
      exact ⟨rfl, hzero⟩
    · rcases hx with ⟨_, hb, ht⟩ | ⟨ht2, _, _⟩
      · rw [ht, if_pos hg, hb, count_update _ _ _ _ he (by decide), hzero]
        exact ⟨rfl, by simp⟩
      · rw [hturn] at ht2
        cases ht2
  · intro h1
    have hg : ¬ 1 = game.players := by
      rw [h.players_eq]
      exact fun hx => h1 hx.symm
    rcases hcases with ⟨hb, ht⟩ | ⟨i, _, he, _, _, hx⟩
    · rw [hb, ht, if_neg hg]
      exact h.turn_two h1
    · rcases hx with ⟨hturn, hb, ht⟩ | ⟨hturn, hb, ht⟩
      · rw [if_neg hg] at ht
        right
        refine ⟨ht, ?_⟩
        rcases h.turn_two h1 with ⟨_, hc⟩ | ⟨hc, _⟩
        · rw [hb, count_update _ _ _ _ he (by decide), count_update _ _ _ _ he (by decide), hc]
          simp
        · rw [hturn] at hc
          cases hc
      · left
        refine ⟨ht, ?_⟩
        rcases h.turn_two h1 with ⟨hc, _⟩ | ⟨_, hc⟩
        · rw [hturn] at hc
          cases hc
        · rw [hb, count_update _ _ _ _ he (by decide), count_update _ _ _ _ he (by decide), hc]
          simp

/-- Every state reachable by input cycles satisfies the invariant. -/
theorem Reachable.inv {players : Int} {game : game_t} (h : Reachable players game) :
    Inv players game := by
  induction h with
  | init => exact Inv_init players
  | step input _ hu ih =>
    obtain ⟨next, hn, hinv⟩ := Inv_step ih input
    rw [hu] at hn
    cases hn
    exact hinv

/-- A run of input cycles from a state satisfying the invariant returns, in a state
satisfying the invariant. -/
theorem run_inv {players : Int} (inputs : List Int) :
    ∀ {game : game_t}, Inv players game → ∃ last, run game inputs = some last ∧
      Inv players last := by
  induction inputs with
  | nil => exact fun h => ⟨_, rfl, h⟩
  | cons input rest ih =>
    intro game h
    obtain ⟨next, hn, hinv⟩ := Inv_step h input
    obtain ⟨last, hl, hlinv⟩ := ih hinv
    refine ⟨last, ?_, hlinv⟩
    simp only [run, hn]
    exact hl

/-- The result of a run of input cycles is reachable. -/
theorem run_reachable {players : Int} (inputs : List Int) :
    ∀ {game last : game_t}, Reachable players game → run game inputs = some last →
      Reachable players last := by
  induction inputs with
  | nil =>
    intro game last h hr
    simp only [run, Option.some.injEq] at hr
    exact hr ▸ h
  | cons input rest ih =>
    intro game last h hr
    simp only [run] at hr
    cases hu : game_update game input with
    | none => rw [hu] at hr; cases hr
    | some next =>
      rw [hu] at hr
      exact ih (Reachable.step input h hu) hr

/-- Claim C2, evaluated on the code: in the two-player game X at 3, O at 0, X at 4,
O at 1, X at 6, O at 2 the board ends as O,O,O / X,X,_ / X,_,_ with a line of three
`PLAYER2` marks and no line of `PLAYER1` marks, and `game_won` has stored `PLAYER1_WIN`,
not `PLAYER2_WIN` (line 178 assigns the same tag as line 173). -/
theorem game_won_o_line_stores_player1_win :
    ∃ game, run (game_init 2) o_top_row_game = some game ∧
      main_loop (game_init 2) o_top_row_game = some game ∧
      (∀ i, game.board i =
        ![PLAYER2, PLAYER2, PLAYER2, PLAYER1, PLAYER1, EMPTY, PLAYER1, EMPTY, EMPTY] i) ∧
      has_line_of game.board PLAYER2 ∧ ¬ has_line_of game.board PLAYER1 ∧
      game.winner = PLAYER1_WIN ∧ game.winner ≠ PLAYER2_WIN ∧
      (game_won { game with winner := IN_PROGRESS }).winner = PLAYER1_WIN :=
  ⟨_, rfl, rfl, by decide, by decide, by decide, by decide, by decide, by decide⟩

/-- Claim C9: with a prior winner of `IN_PROGRESS`, the winner after `game_won` is a win
tag (`PLAYER1_WIN` or `PLAYER2_WIN`) if and only if one of the three rows, three columns
or two diagonals of the grid holds three equal marks other than `EMPTY`; and the table
`threesies` is the list of exactly these 8 index triples. -/
theorem win_detection_three_in_line (game : game_t) (h : game.winner = IN_PROGRESS) :
    (((game_won game).winner = PLAYER1_WIN ∨ (game_won game).winner = PLAYER2_WIN) ↔
      has_line game.board) ∧
    threesies = grid_lines ∧ threesies.length = 8 := by
  refine ⟨?_, threesies_eq_grid_lines, rfl⟩
  rw [game_won_winner, h]
  by_cases hl : has_line game.board
  · simp [hl]
  · by_cases he : ∃ i, game.board i = EMPTY
    · simp [hl, he]
    · simp [hl, he]

theorem win_detection_three_in_line_witness :
    has_line (Function.update (Function.update (fun _ => PLAYER2) 3 PLAYER1) 7 EMPTY) ∧
    ((game_won { game_init 2 with
        board := Function.update (Function.update (fun _ => PLAYER2) 3 PLAYER1) 7 EMPTY
      }).winner = PLAYER1_WIN ∨
     (game_won { game_init 2 with
        board := Function.update (Function.update (fun _ => PLAYER2) 3 PLAYER1) 7 EMPTY
      }).winner = PLAYER2_WIN) ∧
    ¬ has_line draw_board ∧
    ¬ ((game_won { game_init 2 with board := draw_board }).winner = PLAYER1_WIN ∨
       (game_won { game_init 2 with board := draw_board }).winner = PLAYER2_WIN) :=
  ⟨by decide,
    (win_detection_three_in_line { game_init 2 with
        board := Function.update (Function.update (fun _ => PLAYER2) 3 PLAYER1) 7 EMPTY
      } rfl).1.2 (by decide),
    by decide,
    fun h => absurd
      ((win_detection_three_in_line { game_init 2 with board := draw_board } rfl).1.1 h)
      (by decide)⟩

/-- Claim C10: on a board where no line holds three equal marks other than `EMPTY`,
`game_won` stores `DRAW` when no cell is `EMPTY`, and leaves `winner` as it was when
some cell is `EMPTY` (so `IN_PROGRESS` stays `IN_PROGRESS`). -/
theorem no_line_draw_or_unchanged (game : game_t) (h : ¬ has_line game.board) :
    ((∀ i, game.board i ≠ EMPTY) → (game_won game).winner = DRAW) ∧
    ((∃ i, game.board i = EMPTY) → (game_won game).winner = game.winner) := by
  rw [game_won_winner, if_neg h]
  constructor
  · intro hfull
    rw [if_neg]
    rintro ⟨i, hi⟩
    exact hfull i hi
  · intro he
    rw [if_pos he]

theorem no_line_draw_or_unchanged_witness :
    ¬ has_line draw_board ∧ (∀ i, draw_board i ≠ EMPTY) ∧
    (game_won { game_init 2 with board := draw_board }).winner = DRAW ∧
    (game_won (game_init 2)).winner = IN_PROGRESS :=
  ⟨by decide, by decide,
    (no_line_draw_or_unchanged { game_init 2 with board := draw_board } (by decide)).1
      (by decide),
    (no_line_draw_or_unchanged (game_init 2) (by decide)).2 ⟨0, rfl⟩⟩

/-! ## Cursor moves and placing a mark: claims C6, C7 -/

/-- Claim C6: on a state whose cursor is a cell `i` of the board (`0..8`) holding `EMPTY`,
`submit` returns, writes at `i` the mark of the player whose turn it is, gives the turn to
the other player, and leaves the other 8 cells, cursor, winner, quit and players as they
were. -/
theorem submit_places_mark (game : game_t) (i : Fin 9) (hc : game.cursor = (i.val : Int))
    (he : game.board i = EMPTY) :
    ∃ next, submit game = some next ∧ next.board i = mark_of game.turn ∧
      next.turn = other_turn game.turn ∧ (∀ j, j ≠ i → next.board j = game.board j) ∧
      next.cursor = game.cursor ∧ next.winner = game.winner ∧ next.quit = game.quit ∧
      next.players = game.players := by
  have hs : slot game.cursor = some i := by rw [hc, slot_of_fin]
  unfold submit
  rw [hs]
  simp only [he, ne_eq, not_true_eq_false, if_false]
  cases ht : game.turn with
  | PLAYER1_TURN =>
    refine ⟨_, rfl, ?_, rfl, ?_, rfl, rfl, rfl, rfl⟩
    · simp [mark_of]
    · intro j hj
      simp [Function.update_noteq hj]
  | PLAYER2_TURN =>
    refine ⟨_, rfl, ?_, rfl, ?_, rfl, rfl, rfl, rfl⟩
    · simp [mark_of]
    · intro j hj
      simp [Function.update_noteq hj]

theorem submit_places_mark_witness :
    ∃ next, submit (game_init 2) = some next ∧ next.board 0 = PLAYER1 ∧
      next.turn = PLAYER2_TURN ∧ (∀ j, j ≠ 0 → next.board j = EMPTY) ∧
      next.cursor = 0 ∧ next.winner = IN_PROGRESS ∧ next.quit = false ∧ next.players = 2 :=
  submit_places_mark (game_init 2) 0 rfl rfl

/-- Claim C7: for a cursor `c` in `0..8`, `move_left` gives `c` if `c % 3 = 0` else
`c - 1`, `move_right` gives `c` if `c % 3 = 2` else `c + 1`, `move_up` gives `c` if
`c / 3 = 0` (that is `c` in `{0,1,2}`) else `c - 3`, `move_down` gives `c` if `c / 3 = 2`
else `c + 3`; and no move changes a field other than `cursor`. -/
theorem cursor_moves_stop_at_edges (game : game_t) (h0 : 0 ≤ game.cursor)
    (h8 : game.cursor ≤ 8) :
    (move_left game).cursor =
      (if game.cursor % 3 = 0 then game.cursor else game.cursor - 1) ∧
    (move_right game).cursor =
      (if game.cursor % 3 = 2 then game.cursor else game.cursor + 1) ∧
    (move_up game).cursor =
      (if game.cursor / 3 = 0 then game.cursor else game.cursor - 3) ∧
    (move_down game).cursor =
      (if game.cursor / 3 = 2 then game.cursor else game.cursor + 3) ∧
    (game.cursor / 3 = 0 ↔ game.cursor = 0 ∨ game.cursor = 1 ∨ game.cursor = 2) ∧
    same_but_cursor (move_left game) game ∧ same_but_cursor (move_right game) game ∧
    same_but_cursor (move_up game) game ∧ same_but_cursor (move_down game) game := by
  refine ⟨?_, ?_, ?_, ?_, by omega, ?_, ?_, ?_, ?_⟩
  · unfold move_left
    split_ifs <;> first | omega | simp only
  · unfold move_right
    split_ifs <;> first | omega | simp only
  · unfold move_up
    split_ifs <;> first | omega | simp only
  · unfold move_down
    split_ifs <;> first | omega | simp only
  · unfold move_left same_but_cursor
    split_ifs <;> exact ⟨rfl, rfl, rfl, rfl, rfl⟩
  · unfold move_right same_but_cursor
    split_ifs <;> exact ⟨rfl, rfl, rfl, rfl, rfl⟩
  · unfold move_up same_but_cursor
    split_ifs <;> exact ⟨rfl, rfl, rfl, rfl, rfl⟩
  · unfold move_down same_but_cursor
    split_ifs <;> exact ⟨rfl, rfl, rfl, rfl, rfl⟩

theorem cursor_moves_stop_at_edges_witness :
    (move_left { game_init 2 with cursor := 5 }).cursor = 4 ∧
    (move_right { game_init 2 with cursor := 5 }).cursor = 5 ∧
    (move_up { game_init 2 with cursor := 5 }).cursor = 2 ∧
    (move_down { game_init 2 with cursor := 5 }).cursor = 8 := by
  obtain ⟨a, b, c, d, _⟩ :=
    cursor_moves_stop_at_edges { game_init 2 with cursor := 5 } (by decide) (by decide)
  exact ⟨a, b, c, d⟩

/-! ## Input cycles from the initial state: claims C1, C3, C4, C5, C8 -/

/-- Claim C3: in every player mode, from every reachable state whose winner is not
`IN_PROGRESS`, and for every input byte, one more input cycle returns a state with the
same winner. -/
theorem winner_monotonic (players : Int) (game : game_t) (input : Int)
    (hr : Reachable players game) (hw : game.winner ≠ IN_PROGRESS) :
    ∃ next, game_update game input = some next ∧ next.winner = game.winner := by
  have hinv := hr.inv
  obtain ⟨next, hn, hnext⟩ := Inv_step hinv input
  obtain ⟨next2, hn2, _, _, _, _, _, hcases⟩ :=
    game_update_cases game input hinv.cursor_lo hinv.cursor_hi
  rw [hn] at hn2
  cases hn2
  refine ⟨next, hn, ?_⟩
  rw [hnext.winner_eq, hinv.winner_eq]
  have hover : verdict game.board ≠ IN_PROGRESS := hinv.winner_eq ▸ hw
  rcases hcases with ⟨hb, _⟩ | ⟨i, _, he, _, _, hx⟩
  · rw [hb]
  · have hline : has_line game.board := by
      by_contra hl
      apply hover
      unfold verdict
      rw [if_neg hl, if_pos ⟨i, he⟩]
    have hb : ∃ m, next.board = Function.update game.board i m := by
      rcases hx with ⟨_, hb, _⟩ | ⟨_, hb, _⟩
      · exact ⟨_, hb⟩
      · exact ⟨_, hb⟩
    obtain ⟨m, hb⟩ := hb
    have hline2 : has_line next.board := hb ▸ has_line_update m he hline
    unfold verdict
    rw [if_pos hline, if_pos hline2]

theorem winner_monotonic_witness :
    ∃ game, run (game_init 1) [32, 100, 32, 100, 32] = some game ∧
      game.winner = PLAYER1_WIN ∧
      ∃ next, game_update game 115 = some next ∧ next.winner = game.winner :=
  ⟨_, rfl, by decide,
    winner_monotonic 1 _ 115 (run_reachable [32, 100, 32, 100, 32] Reachable.init rfl)
      (by decide)⟩

/-- Claim C4 as stated fails in single-player mode: after the bytes space, `d`, space the
board holds two `PLAYER1` marks and no `PLAYER2` mark. -/
theorem single_player_two_x_no_o :
    ∃ game, run (game_init 1) [32, 100, 32] = some game ∧
      main_loop (game_init 1) [32, 100, 32] = some game ∧
      count game.board PLAYER1 = 2 ∧ count game.board PLAYER2 = 0 ∧
      ¬ count game.board PLAYER1 ≤ count game.board PLAYER2 + 1 :=
  ⟨_, rfl, rfl, by decide, by decide, by decide⟩

/-- A mark whose count is zero is on no cell of the board. -/
theorem no_cell_of_count_zero {board : board_t} {m : state_t} (h : count board m = 0)
    (i : Fin 9) : board i ≠ m := by
  rw [count_eq] at h
  intro hi
  fin_cases i <;> simp only [Fin.zero_eta, Fin.mk_one, Fin.reduceFinMk] at hi <;>
    simp [hi] at h

/-- Claim C4, amended: for every player mode and every finite sequence of input bytes
applied from the initial state, the run returns and the board has at most as many
`PLAYER2` marks as `PLAYER1` marks; in any mode other than single-player (so in
two-player mode) it has at most one more `PLAYER1` mark than `PLAYER2` marks; and in
single-player mode every mark is an X: the count of `PLAYER2` marks is 0 and every cell
is `EMPTY` or `PLAYER1`. -/
theorem mark_counts_balanced (players : Int) (inputs : List Int) :
    ∃ last, run (game_init players) inputs = some last ∧
      count last.board PLAYER2 ≤ count last.board PLAYER1 ∧
      (players ≠ 1 → count last.board PLAYER1 ≤ count last.board PLAYER2 + 1) ∧
      (players = 1 → count last.board PLAYER2 = 0 ∧
        ∀ i, last.board i = EMPTY ∨ last.board i = PLAYER1) := by
  obtain ⟨last, hl, hinv⟩ := run_inv inputs (Inv_init players)
  refine ⟨last, hl, ?_, ?_, ?_⟩
  · by_cases h1 : players = 1
    · rw [(hinv.turn_one h1).2]
      exact Nat.zero_le _
    · rcases hinv.turn_two h1 with ⟨_, hc⟩ | ⟨_, hc⟩ <;> omega
  · intro h1
    rcases hinv.turn_two h1 with ⟨_, hc⟩ | ⟨_, hc⟩ <;> omega
  · intro h1
    have hz := (hinv.turn_one h1).2
    refine ⟨hz, fun i => ?_⟩
    have hne := no_cell_of_count_zero hz i
    cases hb : last.board i with
    | EMPTY => exact Or.inl rfl
    | PLAYER1 => exact Or.inr rfl
    | PLAYER2 => exact absurd hb hne

theorem mark_counts_balanced_witness :
    (∃ last, run (game_init 2) top_row_game = some last ∧
      count last.board PLAYER2 ≤ count last.board PLAYER1 ∧
      count last.board PLAYER1 ≤ count last.board PLAYER2 + 1) ∧
    (∃ last, run (game_init 1) [32, 100, 32] = some last ∧
      count last.board PLAYER2 ≤ count last.board PLAYER1 ∧
      count last.board PLAYER2 = 0 ∧
      ∀ i, last.board i = EMPTY ∨ last.board i = PLAYER1) := by
  obtain ⟨last, hl, h1, h2, _⟩ := mark_counts_balanced 2 top_row_game
  obtain ⟨last1, hl1, g1, _, g3⟩ := mark_counts_balanced 1 [32, 100, 32]
  exact ⟨⟨last, hl, h1, h2 (by decide)⟩, ⟨last1, hl1, g1, (g3 rfl).1, (g3 rfl).2⟩⟩

/-- Claim C5: in every player mode, from every reachable state whose cell under the
cursor is not `EMPTY`, one input cycle with a confirm byte (space 32 or newline 10)
returns a state with the same 9 board cells and the same turn.  (The proof does not use
which byte it is: on an occupied cell no byte changes board or turn.) -/
theorem confirm_on_occupied_cell (players : Int) (game : game_t) (input : Int) (i : Fin 9)
    (hr : Reachable players game) (hi : (i.val : Int) = game.cursor)
    (hocc : game.board i ≠ EMPTY) (_hin : input = 32 ∨ input = 10) :
    ∃ next, game_update game input = some next ∧ next.board = game.board ∧
      next.turn = game.turn := by
  have hinv := hr.inv
  obtain ⟨next, hn, _, _, _, _, _, hcases⟩ :=
    game_update_cases game input hinv.cursor_lo hinv.cursor_hi
  refine ⟨next, hn, ?_⟩
  rcases hcases with ⟨hb, ht⟩ | ⟨j, hj, he, _, _, _⟩
  · refine ⟨hb, ?_⟩
    rw [ht]
    by_cases h1 : 1 = game.players
    · rw [if_pos h1]
      exact ((hinv.turn_one (hinv.players_eq ▸ h1.symm)).1).symm
    · rw [if_neg h1]
  · exfalso
    have hij : j = i := Fin.ext (by omega)
    exact hocc (hij ▸ he)

theorem confirm_on_occupied_cell_witness :
    ∃ game, run (game_init 2) [32] = some game ∧ game.cursor = 0 ∧ game.board 0 = PLAYER1 ∧
      ∃ next, game_update game 32 = some next ∧ next.board = game.board ∧
        next.turn = game.turn :=
  ⟨_, rfl, by decide, by decide,
    confirm_on_occupied_cell 2 _ 32 0 (run_reachable [32] Reachable.init rfl) (by decide)
      (by decide) (Or.inl rfl)⟩

/-- Claim C8: the cursor is always in range.  `0 ≤ cursor ≤ 8` holds after `game_init`;
from a state where it holds, `game_move` returns for every input byte and `game_move`,
`game_ai` and `game_won` give states where it holds; and for every player mode and every
finite sequence of input bytes the run of input cycles from the initial state returns a
state where it holds. -/
theorem cursor_in_range (players : Int) (game : game_t) (input : Int)
    (h0 : 0 ≤ game.cursor) (h8 : game.cursor ≤ 8) :
    (0 ≤ (game_init players).cursor ∧ (game_init players).cursor ≤ 8) ∧
    (∃ mid, game_move game input = some mid ∧ 0 ≤ mid.cursor ∧ mid.cursor ≤ 8) ∧
    (0 ≤ (game_ai game).cursor ∧ (game_ai game).cursor ≤ 8) ∧
    (0 ≤ (game_won game).cursor ∧ (game_won game).cursor ≤ 8) ∧
    (∃ next, game_update game input = some next ∧ 0 ≤ next.cursor ∧ next.cursor ≤ 8) ∧
    (∀ inputs : List Int, ∃ last, run (game_init players) inputs = some last ∧
      0 ≤ last.cursor ∧ last.cursor ≤ 8) := by
  refine ⟨⟨(Inv_init players).cursor_lo, (Inv_init players).cursor_hi⟩, ?_, ⟨h0, h8⟩, ?_, ?_,
    ?_⟩
  · obtain ⟨mid, hm, c0, c8, _⟩ := game_move_cases game input h0 h8
    exact ⟨mid, hm, c0, c8⟩
  · rw [(game_won_frame game).2.2.1]
    exact ⟨h0, h8⟩
  · obtain ⟨next, hn, c0, c8, _⟩ := game_update_cases game input h0 h8
    exact ⟨next, hn, c0, c8⟩
  · intro inputs
    obtain ⟨last, hl, hinv⟩ := run_inv inputs (Inv_init players)
    exact ⟨last, hl, hinv.cursor_lo, hinv.cursor_hi⟩

theorem cursor_in_range_witness :
    (∃ mid, game_move { game_init 2 with cursor := 8 } 100 = some mid ∧ 0 ≤ mid.cursor ∧
      mid.cursor ≤ 8) ∧
    (∃ last, run (game_init 1) [115, 115, 115, 100, 100, 100, 32] = some last ∧
      0 ≤ last.cursor ∧ last.cursor ≤ 8) := by
  obtain ⟨_, hm, _, _, _, hrun⟩ :=
    cursor_in_range 1 { game_init 2 with cursor := 8 } 100 (by decide) (by decide)
  exact ⟨hm, hrun _⟩

/-! ## Further facts about reachable states -/

/-- From a state satisfying the invariant whose game is over, a cycle keeps the winner. -/
theorem Inv.winner_kept {players : Int} {game next : game_t} {input : Int}
    (hinv : Inv players game) (hw : game.winner ≠ IN_PROGRESS)
    (hn : game_update game input = some next) : next.winner = game.winner := by
  obtain ⟨next1, hn1, hnext⟩ := Inv_step hinv input
  obtain ⟨next2, hn2, _, _, _, _, _, hcases⟩ :=
    game_update_cases game input hinv.cursor_lo hinv.cursor_hi
  rw [hn] at hn1 hn2
  cases hn1
  cases hn2
  rw [hnext.winner_eq, hinv.winner_eq]
  have hover : verdict game.board ≠ IN_PROGRESS := hinv.winner_eq ▸ hw
  rcases hcases with ⟨hb, _⟩ | ⟨i, _, he, _, _, hx⟩
  · rw [hb]
  · have hline : has_line game.board := by
      by_contra hl
      apply hover
      unfold verdict
      rw [if_neg hl, if_pos ⟨i, he⟩]
    have hb : ∃ m, next.board = Function.update game.board i m := by
      rcases hx with ⟨_, hb, _⟩ | ⟨_, hb, _⟩
      · exact ⟨_, hb⟩
      · exact ⟨_, hb⟩
    obtain ⟨m, hb⟩ := hb
    have hline2 : has_line next.board := hb ▸ has_line_update m he hline
    unfold verdict
    rw [if_pos hline, if_pos hline2]

/-- In a reachable state `quit` is raised only when the game is over. -/
theorem Reachable.over_of_quit {players : Int} {game : game_t}
    (h : Reachable players game) : game.quit = true → game.winner ≠ IN_PROGRESS := by
  induction h with
  | init => intro hq; cases hq
  | step input hprev hu ih =>
    rename_i prev next
    intro hq
    have hinv := hprev.inv
    obtain ⟨next2, hn2, _, _, _, hquit, _, _⟩ :=
      game_update_cases prev input hinv.cursor_lo hinv.cursor_hi
    rw [hu] at hn2
    cases hn2
    have hover : prev.winner ≠ IN_PROGRESS := by
      by_cases hpq : prev.quit = true
      · exact ih hpq
      · intro hp
        rw [hquit] at hq
        simp [hp, hpq] at hq
    rw [hinv.winner_kept hover hu]
    exact hover

/-- Every cell holds exactly one of the three values, so the three counts add to 9. -/
theorem count_total (board : board_t) :
    count board EMPTY + count board PLAYER1 + count board PLAYER2 = 9 := by
  have cell : ∀ s : state_t,
      (if s = EMPTY then 1 else 0) + (if s = PLAYER1 then 1 else 0) +
        (if s = PLAYER2 then 1 else 0) = 1 := by
    intro s
    cases s <;> rfl
  have c0 := cell (board 0)
  have c1 := cell (board 1)
  have c2 := cell (board 2)
  have c3 := cell (board 3)
  have c4 := cell (board 4)
  have c5 := cell (board 5)
  have c6 := cell (board 6)
  have c7 := cell (board 7)
  have c8 := cell (board 8)
  rw [count_eq, count_eq, count_eq]
  omega

/-- A board with an empty cell has a positive count of `EMPTY`. -/
theorem count_empty_pos {board : board_t} {i : Fin 9} (he : board i = EMPTY) :
    0 < count board EMPTY := by
  rw [count_eq]
  fin_cases i <;> simp only [Fin.zero_eta, Fin.mk_one, Fin.reduceFinMk] at he <;>
    simp [he]

/-! ## Input cycles from the initial state: claims C11, C12, C13, C18, C19, C20 -/

/-- Claim C11: in two-player mode the bytes space, `s`, space, `w`, `d`, space, `s`,
space, `w`, `d`, space from the initial state place X at 0, O at 3, X at 1, O at 4, X at
2; the winner is `IN_PROGRESS` after each of the first four confirms, and after the
fifth the winner is `PLAYER1_WIN` and the board is X,X,X / O,O,_ / _,_,_. -/
theorem top_row_round_trip :
    ∃ s1 s2 s3 s4 s5, run (game_init 2) [32] = some s1 ∧ run s1 [115, 32] = some s2 ∧
      run s2 [119, 100, 32] = some s3 ∧ run s3 [115, 32] = some s4 ∧
      run s4 [119, 100, 32] = some s5 ∧
      run (game_init 2) top_row_game = some s5 ∧
      main_loop (game_init 2) top_row_game = some s5 ∧
      (s1.board 0 = PLAYER1 ∧ s1.winner = IN_PROGRESS) ∧
      (s2.board 3 = PLAYER2 ∧ s2.winner = IN_PROGRESS) ∧
      (s3.board 1 = PLAYER1 ∧ s3.winner = IN_PROGRESS) ∧
      (s4.board 4 = PLAYER2 ∧ s4.winner = IN_PROGRESS) ∧
      (s5.board 2 = PLAYER1 ∧ s5.winner = PLAYER1_WIN) ∧
      (∀ i, s5.board i =
        ![PLAYER1, PLAYER1, PLAYER1, PLAYER2, PLAYER2, EMPTY, EMPTY, EMPTY, EMPTY] i) :=
  ⟨_, _, _, _, _, rfl, rfl, rfl, rfl, rfl, rfl, rfl, by decide, by decide, by decide,
    by decide, by decide, by decide⟩

/-- Claim C12: `quit` is a two-phase signal.  In every player mode, from every state
reachable by input cycles and for every input byte, the cycle returns a state whose
`quit` is true if and only if the winner was already not `IN_PROGRESS` when the cycle
started; so `quit` is false after a cycle that started with winner `IN_PROGRESS`, and a
`quit` that is true stays true.  In the initial state `quit` is false. -/
theorem quit_two_phase (players : Int) (game : game_t) (input : Int)
    (hr : Reachable players game) :
    (game_init players).quit = false ∧
    ∃ next, game_update game input = some next ∧
      (next.quit = true ↔ game.winner ≠ IN_PROGRESS) ∧
      (game.winner = IN_PROGRESS → next.quit = false) ∧
      (game.quit = true → next.quit = true) := by
  have hinv := hr.inv
  obtain ⟨next, hn, _, _, _, hquit, _, _⟩ :=
    game_update_cases game input hinv.cursor_lo hinv.cursor_hi
  have hiff : next.quit = true ↔ game.winner ≠ IN_PROGRESS := by
    rw [hquit]
    constructor
    · intro h
      by_cases hq : game.quit = true
      · exact hr.over_of_quit hq
      · intro hp
        simp [hp, hq] at h
    · intro h
      simp [h]
  refine ⟨rfl, next, hn, hiff, ?_, ?_⟩
  · intro hp
    by_contra hq
    exact (hiff.1 (by simpa using hq)) hp
  · intro hq
    exact hiff.2 (hr.over_of_quit hq)

theorem quit_two_phase_witness :
    ∃ game, run (game_init 2) top_row_game = some game ∧ game.quit = false ∧
      game.winner = PLAYER1_WIN ∧
      ∃ next, game_update game 120 = some next ∧
        (next.quit = true ↔ game.winner ≠ IN_PROGRESS) ∧
        (game.winner = IN_PROGRESS → next.quit = false) ∧
        (game.quit = true → next.quit = true) :=
  ⟨_, rfl, by decide, by decide,
    (quit_two_phase 2 _ 120 (run_reachable top_row_game Reachable.init rfl)).2⟩

/-- Claim C13: on a state with winner `IN_PROGRESS`, `game_move` with byte `a` (97) or
`D` (68) is `move_left`, with `w` (119) or `A` (65) `move_up`, with `d` (100) or `C` (67)
`move_right`, with `s` (115) or `B` (66) `move_down`, with space (32) or newline (10)
`submit`, and with any other value it returns the state unchanged in every field. -/
theorem game_move_classifies_input (game : game_t) (input : Int)
    (h : game.winner = IN_PROGRESS) :
    ((input = 97 ∨ input = 68) → game_move game input = some (move_left game)) ∧
    ((input = 119 ∨ input = 65) → game_move game input = some (move_up game)) ∧
    ((input = 100 ∨ input = 67) → game_move game input = some (move_right game)) ∧
    ((input = 115 ∨ input = 66) → game_move game input = some (move_down game)) ∧
    ((input = 32 ∨ input = 10) → game_move game input = submit game) ∧
    (¬ (input = 97 ∨ input = 68 ∨ input = 119 ∨ input = 65 ∨ input = 100 ∨ input = 67 ∨
        input = 115 ∨ input = 66 ∨ input = 32 ∨ input = 10) →
      game_move game input = some game) := by
  have hg : { game with quit := game.quit || decide (game.winner ≠ IN_PROGRESS) } = game := by
    cases game
    simp only at h
    simp [h]
  rw [game_move_eq, hg]
  simp only [LEFT, UP, RIGHT, DOWN, ENTER, SPACE]
  refine ⟨?_, ?_, ?_, ?_, ?_, ?_⟩
  · intro hi
    rw [if_pos hi]
  · intro hi
    rw [if_neg (by omega), if_pos hi]
  · intro hi
    rw [if_neg (by omega), if_neg (by omega), if_pos hi]
  · intro hi
    rw [if_neg (by omega), if_neg (by omega), if_neg (by omega), if_pos hi]
  · intro hi
    rw [if_neg (by omega), if_neg (by omega), if_neg (by omega), if_neg (by omega),
      if_pos (by omega)]
  · intro hi
    rw [if_neg (by omega), if_neg (by omega), if_neg (by omega), if_neg (by omega),
      if_neg (by omega)]

theorem game_move_classifies_input_witness :
    game_move (game_init 2) 68 = some (move_left (game_init 2)) ∧
    game_move (game_init 2) 66 = some (move_down (game_init 2)) ∧
    game_move (game_init 2) 10 = submit (game_init 2) ∧
    game_move (game_init 2) 13 = some (game_init 2) :=
  ⟨(game_move_classifies_input (game_init 2) 68 rfl).1 (Or.inr rfl),
    (game_move_classifies_input (game_init 2) 66 rfl).2.2.2.1 (Or.inr rfl),
    (game_move_classifies_input (game_init 2) 10 rfl).2.2.2.2.1 (Or.inr rfl),
    (game_move_classifies_input (game_init 2) 13 rfl).2.2.2.2.2 (by decide)⟩

/-- Claim C18: `game_ai` sets `turn` to `PLAYER1_TURN` and changes no other field; and
in single-player mode, for every sequence of input cycles from the initial state, the run
returns a state with `turn = PLAYER1_TURN`, and for every further input byte the cycle
returns a state with `turn = PLAYER1_TURN` whose board is the board left by the
`game_move` step (the AI step places no mark). -/
theorem single_player_ai_is_placeholder (game : game_t) (inputs : List Int) (input : Int) :
    ((game_ai game).turn = PLAYER1_TURN ∧ (game_ai game).board = game.board ∧
      (game_ai game).cursor = game.cursor ∧ (game_ai game).winner = game.winner ∧
      (game_ai game).quit = game.quit ∧ (game_ai game).players = game.players) ∧
    ∃ last, run (game_init 1) inputs = some last ∧ last.turn = PLAYER1_TURN ∧
      ∃ mid next, game_move last input = some mid ∧ game_update last input = some next ∧
        next = game_won (game_ai mid) ∧ next.board = mid.board ∧
        next.turn = PLAYER1_TURN := by
  refine ⟨⟨rfl, rfl, rfl, rfl, rfl, rfl⟩, ?_⟩
  obtain ⟨last, hl, hinv⟩ := run_inv inputs (Inv_init 1)
  refine ⟨last, hl, (hinv.turn_one rfl).1, ?_⟩
  obtain ⟨mid, hm, _, _, _, hp, _, _⟩ :=
    game_move_cases last input hinv.cursor_lo hinv.cursor_hi
  have h1 : 1 = mid.players := by rw [hp, hinv.players_eq]
  obtain ⟨fb, ft, _⟩ := game_won_frame (game_ai mid)
  refine ⟨mid, game_won (game_ai mid), hm, ?_, rfl, ?_, ?_⟩
  · unfold game_update
    rw [hm]
    simp only [if_pos h1]
  · rw [fb]
    rfl
  · rw [ft]
    rfl

/-- Claim C19: in two-player mode, in every state reachable by input cycles, the turn is
`PLAYER1_TURN` exactly when the board has as many `PLAYER1` marks as `PLAYER2` marks, and
`PLAYER2_TURN` exactly when it has one more `PLAYER1` mark. -/
theorem turn_tracks_mark_counts (game : game_t) (hr : Reachable 2 game) :
    (game.turn = PLAYER1_TURN ↔ count game.board PLAYER1 = count game.board PLAYER2) ∧
    (game.turn = PLAYER2_TURN ↔
      count game.board PLAYER1 = count game.board PLAYER2 + 1) := by
  rcases hr.inv.turn_two (by decide) with ⟨ht, hc⟩ | ⟨ht, hc⟩
  · rw [ht, hc]
    simp
  · rw [ht, hc]
    simp

theorem turn_tracks_mark_counts_witness :
    ∃ game, run (game_init 2) [32, 100, 32, 100, 32] = some game ∧
      game.turn = PLAYER2_TURN ∧
      (game.turn = PLAYER1_TURN ↔ count game.board PLAYER1 = count game.board PLAYER2) ∧
      (game.turn = PLAYER2_TURN ↔
        count game.board PLAYER1 = count game.board PLAYER2 + 1) :=
  ⟨_, rfl, by decide,
    turn_tracks_mark_counts _ (run_reachable [32, 100, 32, 100, 32] Reachable.init rfl)⟩

/-- Claim C20: in every player mode, in every state reachable by input cycles, the
winner is `IN_PROGRESS` exactly when no line holds three equal marks other than `EMPTY`
and some cell is `EMPTY`, and `DRAW` exactly when no line does and no cell is `EMPTY`; so
a full board is never `IN_PROGRESS`, and once 9 marks are placed the game is over. -/
theorem winner_agrees_with_board (players : Int) (game : game_t)
    (hr : Reachable players game) :
    (game.winner = IN_PROGRESS ↔ ¬ has_line game.board ∧ ∃ i, game.board i = EMPTY) ∧
    (game.winner = DRAW ↔ ¬ has_line game.board ∧ ∀ i, game.board i ≠ EMPTY) ∧
    ((∀ i, game.board i ≠ EMPTY) → game.winner ≠ IN_PROGRESS) ∧
    (count game.board PLAYER1 + count game.board PLAYER2 = 9 →
      game.winner ≠ IN_PROGRESS) := by
  have hw := hr.inv.winner_eq
  unfold verdict at hw
  have hprog : game.winner = IN_PROGRESS ↔
      ¬ has_line game.board ∧ ∃ i, game.board i = EMPTY := by
    rw [hw]
    by_cases hl : has_line game.board
    · simp [hl]
    · by_cases he : ∃ i, game.board i = EMPTY
      · simp [hl, he]
      · simp only [if_neg hl, if_neg he]
        simp [he]
  refine ⟨hprog, ?_, ?_, ?_⟩
  · rw [hw]
    by_cases hl : has_line game.board
    · simp [hl]
    · by_cases he : ∃ i, game.board i = EMPTY
      · simp only [if_neg hl, if_pos he]
        obtain ⟨i, hi⟩ := he
        simp only [reduceCtorEq, false_iff, not_and, not_forall, not_not]
        exact fun _ => ⟨i, hi⟩
      · simp only [if_neg hl, if_neg he, true_iff]
        exact ⟨hl, fun i hi => he ⟨i, hi⟩⟩
  · intro hfull hp
    obtain ⟨i, hi⟩ := (hprog.1 hp).2
    exact hfull i hi
  · intro hnine hp
    obtain ⟨i, hi⟩ := (hprog.1 hp).2
    have h1 := count_empty_pos hi
    have h2 := count_total game.board
    omega

theorem winner_agrees_with_board_witness :
    ∃ game, run (game_init 1) [32, 100, 32] = some game ∧ game.winner = IN_PROGRESS ∧
      ¬ has_line game.board ∧ ∃ i, game.board i = EMPTY :=
  ⟨_, rfl, by decide,
    (winner_agrees_with_board 1 _ (run_reachable [32, 100, 32] Reachable.init rfl)).1.1
      (by decide)⟩

/-! ## Lines of both players: claim C17 -/

/-- Truncating division by 2 in terms of the division `omega` knows. -/
theorem c_div_two (a : Int) :
    (0 ≤ a → c_div a 2 = a / 2) ∧ (a < 0 → c_div a 2 = -((-a) / 2)) := by
  unfold c_div
  constructor
  · intro h
    exact Int.tdiv_eq_ediv h (by decide)
  · intro h
    have h2 : a = -(-a) := by omega
    rw [h2, Int.neg_tdiv, Int.tdiv_eq_ediv (by omega) (by decide)]
    simp

/-- The `size_t` detour of `print_win` gives the plain difference for an `int` width. -/
theorem left_pad_exact (width : Int) (len : Nat) (hlo : -2147483648 ≤ width)
    (hhi : width ≤ 2147483647) (hlen : len ≤ 1000) :
    to_int (to_size (to_size (c_div width 2) - (len : Int))) = c_div width 2 - (len : Int) := by
  obtain ⟨hpos, hneg⟩ := c_div_two width
  unfold to_int to_size
  by_cases h : 0 ≤ width
  · rw [hpos h]
    omega
  · rw [hneg (by omega)]
    omega

/-- Claim C14: for every window size, `game_draw` positions the five rows of the board
at rows `top`, `top + 1`, ..., `top + 4` and column `left`, where `top = height/2 - 3` and
`left = width/2 - 5` with the integer division of C: the three rows of cells at `top`,
`top + 2`, `top + 4` and the two divider rows between them; these are all its calls
of the positioning format (the opening literal text homes the cursor with its own
`0;0`).  For the window (80, 24) the first row of the board is positioned at row 9,
column 35. -/
theorem game_draw_centres_board (game : game_t) (screen : screen_t) :
    positioned (game_draw game screen) =
      [((c_div screen.height 2 - 3, c_div screen.width 2 - 5), board_row game 0 1 2),
       ((c_div screen.height 2 - 3 + 1, c_div screen.width 2 - 5),
          [printf_call.text "-----------"]),
       ((c_div screen.height 2 - 3 + 2, c_div screen.width 2 - 5), board_row game 3 4 5),
       ((c_div screen.height 2 - 3 + 3, c_div screen.width 2 - 5),
          [printf_call.text "-----------"]),
       ((c_div screen.height 2 - 3 + 4, c_div screen.width 2 - 5), board_row game 6 7 8)] ∧
    (positioned (game_draw game { width := 80, height := 24 })).head? =
      some ((9, 35), board_row game 0 1 2) ∧
    (game_draw game { width := 80, height := 24 }).take 2 =
      [printf_call.text "\x1b[?25l\x1b[2J\x1b[0;0H", printf_call.position 9 35] ∧
    emit (printf_call.position 9 35) = "\x1b[9;35H" := by
  have hrows : ∀ s : screen_t, positioned (game_draw game s) =
      [((c_div s.height 2 - 3, c_div s.width 2 - 5), board_row game 0 1 2),
       ((c_div s.height 2 - 3 + 1, c_div s.width 2 - 5), [printf_call.text "-----------"]),
       ((c_div s.height 2 - 3 + 2, c_div s.width 2 - 5), board_row game 3 4 5),
       ((c_div s.height 2 - 3 + 3, c_div s.width 2 - 5), [printf_call.text "-----------"]),
       ((c_div s.height 2 - 3 + 4, c_div s.width 2 - 5), board_row game 6 7 8)] := by
    intro s
    cases game with
    | mk turn winner board cursor quit players =>
      cases winner <;> rfl
  refine ⟨hrows screen, ?_, rfl, by decide⟩
  rw [hrows]
  rfl

/-- Claim C15: `print_win` makes no `printf` call when the winner is `IN_PROGRESS`;
otherwise it writes the status text (`PLAYER 1 WINS` for `PLAYER1_WIN`, `PLAYER 2 WINS`
for `PLAYER2_WIN`, `DRAW` for `DRAW`) at row `(height/2 - 3) + 6`, two rows below the
last row of the board at `(height/2 - 3) + 4`, and column `width/2 - len(text)/2`, and
then the prompt on the next row.  The width is any value of an `int`. -/
theorem print_win_status_line (game : game_t) (screen : screen_t)
    (hlo : -2147483648 ≤ screen.width) (hhi : screen.width ≤ 2147483647) :
    (game.winner = IN_PROGRESS → print_win game screen = []) ∧
    (game.winner = PLAYER1_WIN → print_win game screen = status_lines screen "PLAYER 1 WINS") ∧
    (game.winner = PLAYER2_WIN → print_win game screen = status_lines screen "PLAYER 2 WINS") ∧
    (game.winner = DRAW → print_win game screen = status_lines screen "DRAW") ∧
    (c_div screen.height 2 - 3) + 6 = ((c_div screen.height 2 - 3) + 4) + 2 := by
  have h6 := left_pad_exact screen.width 6 hlo hhi (by decide)
  have h2 := left_pad_exact screen.width 2 hlo hhi (by decide)
  have h10 := left_pad_exact screen.width 10 hlo hhi (by decide)
  have l13 : "PLAYER 1 WINS".length / 2 = 6 := by decide
  have l13b : "PLAYER 2 WINS".length / 2 = 6 := by decide
  have l4 : "DRAW".length / 2 = 2 := by decide
  have l23 : ("Press any key to exit\n\n".length - 2) / 2 = 10 := by decide
  refine ⟨?_, ?_, ?_, ?_, by omega⟩
  · intro h
    simp only [print_win, h]
  · intro h
    simp only [print_win, h, status_lines, l13, l23]
    rw [h6, h10]
    rfl
  · intro h
    simp only [print_win, h, status_lines, l13b, l23]
    rw [h6, h10]
    rfl
  · intro h
    simp only [print_win, h, status_lines, l4, l23]
    rw [h2, h10]
    rfl

theorem print_win_status_line_witness :
    print_win { game_init 2 with winner := PLAYER1_WIN } { width := 80, height := 24 } =
      [printf_call.message 15 34 "PLAYER 1 WINS",
       printf_call.message 16 30 "Press any key to exit\n\n"] ∧
    print_win (game_init 2) { width := 80, height := 24 } = [] :=
  ⟨((print_win_status_line { game_init 2 with winner := PLAYER1_WIN }
      { width := 80, height := 24 } (by decide) (by decide)).2.1 rfl).trans (by decide),
    (print_win_status_line (game_init 2) { width := 80, height := 24 } (by decide)
      (by decide)).1 rfl⟩

/-- Claim C16: when `read` delivers `n` bytes with `1 ≤ n ≤ 5`, `process_input` returns
the `n`-th of them, read at index `n - 1` of the buffer, which is inside its 10 bytes. -/
theorem process_input_returns_last_byte (buffer : List Int) (bytes : List Int)
    (h1 : 1 ≤ bytes.length) (h5 : bytes.length ≤ 5) :
    ∃ c rest, bytes[bytes.length - 1]? = some c ∧
      process_input buffer (read_t.delivered bytes) = input_t.returned c (bytes ++ rest) ∧
      (bytes ++ rest)[bytes.length - 1]? = some c ∧ bytes.length - 1 < BUFFER_SIZE := by
  have hlt : bytes.length - 1 < bytes.length := by omega
  have hget : (bytes ++ (List.replicate 4 0 ++ buffer.drop 4).drop bytes.length)[
      bytes.length - 1]? = some (bytes[bytes.length - 1]) := by
    rw [List.getElem?_append_left hlt, List.getElem?_eq_getElem hlt]
  refine ⟨bytes[bytes.length - 1], (List.replicate 4 0 ++ buffer.drop 4).drop bytes.length,
    List.getElem?_eq_getElem hlt, ?_, hget, ?_⟩
  · unfold process_input
    simp only [List.take_of_length_le h5]
    rw [if_neg (by omega), hget]
  · unfold BUFFER_SIZE
    omega

theorem process_input_returns_last_byte_witness :
    (∃ rest, process_input (List.replicate 10 0) (read_t.delivered [27, 91, 65]) =
      input_t.returned 65 ([27, 91, 65] ++ rest)) ∧
    (∃ rest, process_input (List.replicate 10 0) (read_t.delivered [119]) =
      input_t.returned 119 ([119] ++ rest)) := by
  obtain ⟨c, rest, hc, hp, _⟩ :=
    process_input_returns_last_byte (List.replicate 10 0) [27, 91, 65] (by decide)
      (by decide)
  obtain ⟨c2, rest2, hc2, hp2, _⟩ :=
    process_input_returns_last_byte (List.replicate 10 0) [119] (by decide) (by decide)
  have e1 : c = 65 := by
    simp at hc
    exact hc.symm
  have e2 : c2 = 119 := by
    simp at hc2
    exact hc2.symm
  exact ⟨⟨rest, e1 ▸ hp⟩, ⟨rest2, e2 ▸ hp2⟩⟩

end TicTacToe
